import Mathlib

/-!
Shallow embedding of the FastRenamer core (src/name_sanitizer.py and
src/content_extractors.py).

Python strings are modelled as Lean `String` (a list of unicode scalar
characters). Library calls that the source treats as black boxes are
modelled as explicit parameters:
  * `unicodedata.normalize` followed by stripping of combining marks is an
    abstract function `nfkd : String → String` (only used when
    `normalize_unicode` is true);
  * `re.search(pattern, text, re.MULTILINE)` is an abstract function
    `re_search : String → String → Option ReMatch`;
  * `datetime.datetime.now().strftime(...)` is an abstract `timestamp`
    string parameter;
  * a directory is a `Directory` value: a `present` flag models
    `directory.exists()` and a list of names models the directory's entry
    set, with `(directory / name).exists()` modelled as list membership.
`str.upper`/`str.lower` are modelled by `Char.toUpper`/`Char.toLower`
(ASCII case mapping; the reserved-name comparison only involves ASCII).
-/

/-- Characters replaced by `_` in `sanitize_filename`
(regex `[<>:"|?*\\\x00-\x1f\x7f]`, src/name_sanitizer.py line 40). -/
def isInvalidChar (c : Char) : Bool :=
  c == '<' || c == '>' || c == ':' || c == '\"' || c == '|' || c == '?' ||
  c == '*' || c == '\\' || c.toNat ≤ 31 || c.toNat == 127

/-- `re.sub(invalid_chars, '_', filename)` (line 41). -/
def replaceInvalid (s : String) : String :=
  ⟨s.data.map (fun c => if isInvalidChar c then '_' else c)⟩

/-- `filename.replace(' ', '_')` (line 56). -/
def replaceSpaceChars (s : String) : String :=
  ⟨s.data.map (fun c => if c == ' ' then '_' else c)⟩

/-- The characters stripped by `filename.strip('. ')` (line 59). -/
def isStripChar (c : Char) : Bool :=
  c == '.' || c == ' '

/-- `l.dropWhile p` from the right end. -/
def rtrim (p : Char → Bool) (l : List Char) : List Char :=
  (l.reverse.dropWhile p).reverse

/-- Python `s.strip('. ')`: remove leading and trailing dots and spaces. -/
def pyStrip (s : String) : String :=
  ⟨rtrim isStripChar (s.data.dropWhile isStripChar)⟩

/-- Python `s.upper()` (ASCII case mapping; see header). -/
def pyUpper (s : String) : String :=
  ⟨s.data.map Char.toUpper⟩

/-- Python `s.lower()` (ASCII case mapping; see header). -/
def pyLower (s : String) : String :=
  ⟨s.data.map Char.toLower⟩

/-- Python slice `s[:n]`. -/
def pyTake (s : String) (n : Nat) : String :=
  ⟨s.data.take n⟩

/-- Python `s.split(sep)` for a one-character separator, on char lists. -/
def splitChar (sep : Char) : List Char → List (List Char)
  | [] => [[]]
  | c :: cs =>
    let r := splitChar sep cs
    if c = sep then [] :: r
    else (c :: r.headI) :: r.tail

/-- The components `pathlib.PurePosixPath` keeps: `s.split('/')` with empty
and `"."` components dropped. -/
def pathParts (s : String) : List (List Char) :=
  (splitChar '/' s.data).filter (fun p => !p.isEmpty && !(p == ['.']))

/-- `pathlib.PurePosixPath(s).name` as a char list: the last kept component,
or empty when there is none. -/
def pathNameChars (s : String) : List Char :=
  ((pathParts s).getLast?).getD []

/-- Index of the last occurrence of `c`, if any. -/
def lastIdxOf (c : Char) : List Char → Option Nat
  | [] => none
  | x :: xs =>
    match lastIdxOf c xs with
    | some i => some (i + 1)
    | none => if x = c then some 0 else none

/-- `pathlib` stem of a path `name`: chars before the last dot when that dot
is neither first nor last (`0 < i < len(name) - 1`), else all of `name`. -/
def nameStem (n : List Char) : List Char :=
  match lastIdxOf '.' n with
  | some i => if 0 < i ∧ i + 1 < n.length then n.take i else n
  | none => n

/-- `pathlib` suffix of a path `name`: chars from the last dot onward when
that dot is neither first nor last, else empty. -/
def nameExt (n : List Char) : List Char :=
  match lastIdxOf '.' n with
  | some i => if 0 < i ∧ i + 1 < n.length then n.drop i else []
  | none => []

/-- `Path(s).stem`. -/
def pathStem (s : String) : String :=
  ⟨nameStem (pathNameChars s)⟩

/-- `Path(s).suffix`. -/
def pathExt (s : String) : String :=
  ⟨nameExt (pathNameChars s)⟩

/-- The Windows reserved device names of src/name_sanitizer.py lines 44-48. -/
def reservedNames : List String :=
  ["CON", "PRN", "AUX", "NUL",
   "COM1", "COM2", "COM3", "COM4", "COM5", "COM6", "COM7", "COM8", "COM9",
   "LPT1", "LPT2", "LPT3", "LPT4", "LPT5", "LPT6", "LPT7", "LPT8", "LPT9"]

/-- Steps 2-6 of `sanitize_filename` (lines 37-63), applied to the possibly
unicode-normalized name `f1`: replace invalid characters, prefix `_` when the
(case-insensitive) stem is a reserved device name, optionally replace spaces,
strip leading/trailing dots and spaces, and fall back to `"unnamed"` when
empty. -/
def sanitizeCore (f1 : String) (replace_spaces : Bool) : String :=
  let f2 := replaceInvalid f1
  let f3 := if pyUpper (pathStem f2) ∈ reservedNames then "_" ++ f2 else f2
  let f4 := if replace_spaces then replaceSpaceChars f3 else f3
  let f5 := pyStrip f4
  if f5 = "" then "unnamed" else f5

/-- Step 7 of `sanitize_filename` (lines 65-76): when the name exceeds
`max_length`, keep the extension in full if it fits (`available_length > 0`),
otherwise cut the whole string. -/
def truncPreserve (s : String) (max_length : Nat) : String :=
  if max_length < s.length then
    if (pathExt s).length < max_length then
      pyTake (pathStem s) (max_length - (pathExt s).length) ++ pathExt s
    else pyTake s max_length
  else s

/-- `sanitize_filename` (src/name_sanitizer.py lines 13-78). -/
def sanitize_filename (nfkd : String → String) (filename : String)
    (normalize_unicode : Bool) (replace_spaces : Bool) (max_length : Nat) :
    String :=
  if filename = "" then "unnamed"
  else
    truncPreserve
      (sanitizeCore (if normalize_unicode then nfkd filename else filename)
        replace_spaces)
      max_length

/-- `truncate_filename` (lines 125-157), including the unreachable
`ext[:max_length]` branch of the source. -/
def truncate_filename (filename : String) (max_length : Nat)
    (preserve_extension : Bool) : String :=
  if filename.length ≤ max_length then filename
  else if preserve_extension = false then pyTake filename max_length
  else
    if max_length ≤ (pathExt filename).length then pyTake filename max_length
    else
      if 0 < max_length - (pathExt filename).length then
        pyTake (pathStem filename) (max_length - (pathExt filename).length) ++
          pathExt filename
      else pyTake (pathExt filename) max_length

/-- `add_prefix_suffix` (lines 160-181). -/
def add_prefix_suffix (filename : String) (pre : String) (suf : String) :
    String :=
  if filename = "" then filename
  else pre ++ pathStem filename ++ suf ++ pathExt filename

/-- Python `s.capitalize()` (ASCII model). -/
def pyCapitalize (s : String) : String :=
  match s.data with
  | [] => ""
  | c :: cs => ⟨Char.toUpper c :: cs.map Char.toLower⟩

/-- Helper for `pyTitle`: the Bool records whether the previous character was
alphabetic. -/
def pyTitleAux (prevAlpha : Bool) : List Char → List Char
  | [] => []
  | c :: cs =>
    (if c.isAlpha then (if prevAlpha then c.toLower else c.toUpper) else c) ::
      pyTitleAux c.isAlpha cs

/-- Python `s.title()` (ASCII model). -/
def pyTitle (s : String) : String :=
  ⟨pyTitleAux false s.data⟩

/-- `normalize_filename_case` (lines 184-210). -/
def normalize_filename_case (filename : String) (case_style : String) :
    String :=
  if filename = "" then filename
  else
    let stem := pathStem filename
    let ext := pyLower (pathExt filename)
    (if case_style = "lower" then pyLower stem
     else if case_style = "upper" then pyUpper stem
     else if case_style = "title" then pyTitle stem
     else if case_style = "sentence" then pyCapitalize stem
     else stem) ++ ext

/-- A target directory: `present` models `directory.exists()` and `names` the
set of entry names, with `(directory / n).exists()` modelled as
`n ∈ names`. -/
structure Directory where
  present : Bool
  names : List String

/-- The numbered-variant loop of `resolve_filename_conflicts`
(lines 111-117): starting at attempt `i` with `fuel` attempts left, return
the first `stem + fmt(i) + ext` not in `names`. -/
def resolveAttempts (stem ext : String) (fmt : Nat → String)
    (names : List String) : Nat → Nat → Option String
  | _, 0 => none
  | i, fuel + 1 =>
    if (stem ++ fmt i ++ ext) ∈ names then
      resolveAttempts stem ext fmt names (i + 1) fuel
    else some (stem ++ fmt i ++ ext)

/-- `resolve_filename_conflicts` (lines 81-122). `fmt` models
`suffix_format.format`, `timestamp` models
`datetime.datetime.now().strftime("%Y%m%d_%H%M%S")`. -/
def resolve_filename_conflicts (base_filename : String) (dir : Directory)
    (fmt : Nat → String) (max_attempts : Nat) (timestamp : String) : String :=
  if dir.present = false then base_filename
  else if base_filename ∈ dir.names then
    match resolveAttempts (pathStem base_filename) (pathExt base_filename)
        fmt dir.names 1 max_attempts with
    | some newName => newName
    | none => pathStem base_filename ++ "_" ++ timestamp ++ pathExt base_filename
  else base_filename

/-- `"({})".format(n)`: the default conflict suffix template. -/
def defaultFmt (n : Nat) : String :=
  "(" ++ Nat.repr n ++ ")"

/-- The `FilenameSanitizer` constructor configuration (lines 216-238);
`conflict_suffix_format` models `self.conflict_suffix_format.format`. -/
structure SanitizerConfig where
  normalize_unicode : Bool
  replace_spaces : Bool
  max_length : Nat
  case_style : Option String
  conflict_resolution : Bool
  conflict_suffix_format : Nat → String

/-- `FilenameSanitizer.sanitize` (lines 240-285). -/
def FilenameSanitizer.sanitize (cfg : SanitizerConfig)
    (nfkd : String → String) (timestamp : String) (filename : String)
    (dir : Option Directory) (pre suf : String) : String :=
  if filename = "" then "unnamed"
  else
    let r1 := sanitize_filename nfkd filename cfg.normalize_unicode
      cfg.replace_spaces cfg.max_length
    let r2 := if pre ≠ "" ∨ suf ≠ "" then
        truncate_filename ( add_prefix_suffix r1 pre suf) cfg.max_length true
      else r1
    let r3 := match cfg.case_style with
      | some style => normalize_filename_case r2 style
      | none => r2
    match dir with
    | some d =>
      if cfg.conflict_resolution then
        resolve_filename_conflicts r3 d cfg.conflict_suffix_format 1000
          timestamp
      else r3
    | none => r3

/-- The in-batch retry loop of `batch_sanitize` (lines 310-319): while
`sanitized ∈ used` and `counter ≤ 1000`, set
`sanitized := stem + fmt(counter) + ext` and increment `counter`. `fuel` is
the number of remaining iterations (`1001 - counter`). -/
def batchRetry (used : List String) (stem ext : String) (fmt : Nat → String) :
    Nat → Nat → String → String
  | _, 0, sanitized => sanitized
  | counter, fuel + 1, sanitized =>
    if sanitized ∈ used then
      batchRetry used stem ext fmt (counter + 1) fuel (stem ++ fmt counter ++ ext)
    else sanitized

/-- One element of the batch loop body (lines 306-321): re-resolve within the
batch when the sanitized name was already produced. -/
def batchStep (cfg : SanitizerConfig) (used : List String)
    (sanitized : String) : String :=
  if sanitized ∈ used then
    batchRetry used (pathStem sanitized) (pathExt sanitized)
      cfg.conflict_suffix_format 1 1000 sanitized
  else sanitized

/-- The fold of `batch_sanitize` over the input list, carrying the
`used_names` set (as a list read through membership). -/
def batchAux (cfg : SanitizerConfig) (nfkd : String → String)
    (timestamp : String) (dir : Option Directory) (pre suf : String) :
    List String → List String → List (String × String)
  | _, [] => []
  | used, orig :: rest =>
    let s1 := batchStep cfg used
      (FilenameSanitizer.sanitize cfg nfkd timestamp orig dir pre suf)
    (orig, s1) :: batchAux cfg nfkd timestamp dir pre suf (s1 :: used) rest

/-- `FilenameSanitizer.batch_sanitize` (lines 287-324). -/
def FilenameSanitizer.batch_sanitize (cfg : SanitizerConfig)
    (nfkd : String → String) (timestamp : String) (filenames : List String)
    (dir : Option Directory) (pre suf : String) : List (String × String) :=
  batchAux cfg nfkd timestamp dir pre suf [] filenames

/-- The default `FilenameSanitizer()` configuration (lines 216-222). -/
def defaultConfig : SanitizerConfig :=
  ⟨true, false, 255, none, true, defaultFmt⟩

/-- A `re.Match`: the whole match (`group(0)`) and the capture groups
(`group(1)`, ... — `none` for a group that did not participate). -/
structure ReMatch where
  whole : String
  groups : List (Option String)
deriving DecidableEq

/-- `return match.group(1) if match.groups() else match.group(0)`
(src/content_extractors.py line 79 and line 127). -/
def matchResult (m : ReMatch) : Option String :=
  match m.groups with
  | [] => some m.whole
  | g :: _ => g

/-- Python whitespace for `str.strip()` with no argument. -/
def isPyWs (c : Char) : Bool :=
  c == ' ' || c == '\t' || c == '\n' || c == '\r' || c.toNat == 11 ||
    c.toNat == 12

/-- Python `s.strip()`. -/
def pyStripWs (s : String) : String :=
  ⟨rtrim isPyWs (s.data.dropWhile isPyWs)⟩

/-- `content.split('\n')`. -/
def splitLines (s : String) : List String :=
  (splitChar '\n' s.data).map (fun l => ⟨l⟩)

/-- The first-non-empty-line fallback (lines 83-88 and 131-136): the first
line that is non-empty after `strip()`, returned stripped. -/
def firstNonEmptyLine (content : String) : Option String :=
  ((splitLines content).map pyStripWs).find? (fun l => !(l == ""))

/-- The shared regex-or-first-line policy of `TextExtractor.extract_content`
and `PDFExtractor.extract_content` (lines 75-88 and 123-136), applied to the
decoded text. An empty pattern is falsy in Python, hence treated like no
pattern. `re_search` models `re.search(pattern, content, re.MULTILINE)`. -/
def regexOrFirstLine (re_search : String → String → Option ReMatch)
    (content : String) (regex_pattern : Option String) : Option String :=
  match regex_pattern with
  | some pat =>
    if pat = "" then firstNonEmptyLine content
    else
      match re_search pat content with
      | some m => matchResult m
      | none => none
  | none => firstNonEmptyLine content

/-- `TextExtractor.extract_content` (lines 52-91) on the decoded file
content (the encoding detection and file read are I/O, outside the model). -/
def TextExtractor.extract_content (re_search : String → String → Option ReMatch)
    (content : String) (regex_pattern : Option String) : Option String :=
  regexOrFirstLine re_search content regex_pattern

/-- The page concatenation of `PDFExtractor.extract_content` (lines 115-121):
text of the first `min(max_pages, len(pages))` pages, each followed by a
newline. -/
def pdfContent (pages : List String) (max_pages : Nat) : String :=
  String.join ((pages.take (min max_pages pages.length)).map (fun p => p ++ "\n"))

/-- `PDFExtractor.extract_content` (lines 100-139) on the per-page extracted
texts. -/
def PDFExtractor.extract_content (re_search : String → String → Option ReMatch)
    (pages : List String) (max_pages : Nat) (regex_pattern : Option String) :
    Option String :=
  regexOrFirstLine re_search (pdfContent pages max_pages) regex_pattern

/-- A naive datetime record, as produced by `datetime.strptime`. -/
structure PyDateTime where
  year : Nat
  month : Nat
  day : Nat
  hour : Nat
  minute : Nat
  second : Nat
deriving DecidableEq

/-- Numeric value of a decimal digit character. -/
def d1 (c : Char) : Nat :=
  c.toNat - 48

/-- Is `c` in the inclusive character range `lo`..`hi`? -/
def inR (c lo hi : Char) : Bool :=
  lo ≤ c && c ≤ hi

/-- CPython `_strptime` `%Y`: exactly four digits. -/
def parse4Digits : List Char → Option (Nat × List Char)
  | a :: b :: c :: d :: rest =>
    if a.isDigit && b.isDigit && c.isDigit && d.isDigit then
      some (d1 a * 1000 + d1 b * 100 + d1 c * 10 + d1 d, rest)
    else none
  | _ => none

/-- Alternatives of the `%m` regex `1[0-2]|0[1-9]|[1-9]`, in preference
order, as (value, remaining input) pairs. -/
def altsMonth (cs : List Char) : List (Nat × List Char) :=
  (match cs with
   | '1' :: c :: rest => if inR c '0' '2' then [(10 + d1 c, rest)] else []
   | _ => []) ++
  (match cs with
   | '0' :: c :: rest => if inR c '1' '9' then [(d1 c, rest)] else []
   | _ => []) ++
  (match cs with
   | c :: rest => if inR c '1' '9' then [(d1 c, rest)] else []
   | _ => [])

/-- Alternatives of the `%d` regex `3[01]|[12]\d|0[1-9]|[1-9]`. -/
def altsDay (cs : List Char) : List (Nat × List Char) :=
  (match cs with
   | '3' :: c :: rest => if inR c '0' '1' then [(30 + d1 c, rest)] else []
   | _ => []) ++
  (match cs with
   | a :: b :: rest =>
     if inR a '1' '2' && b.isDigit then [(d1 a * 10 + d1 b, rest)] else []
   | _ => []) ++
  (match cs with
   | '0' :: c :: rest => if inR c '1' '9' then [(d1 c, rest)] else []
   | _ => []) ++
  (match cs with
   | c :: rest => if inR c '1' '9' then [(d1 c, rest)] else []
   | _ => [])

/-- Alternatives of the `%H` regex `2[0-3]|[0-1]\d|\d`. -/
def altsHour (cs : List Char) : List (Nat × List Char) :=
  (match cs with
   | '2' :: c :: rest => if inR c '0' '3' then [(20 + d1 c, rest)] else []
   | _ => []) ++
  (match cs with
   | a :: b :: rest =>
     if inR a '0' '1' && b.isDigit then [(d1 a * 10 + d1 b, rest)] else []
   | _ => []) ++
  (match cs with
   | c :: rest => if c.isDigit then [(d1 c, rest)] else []
   | _ => [])

/-- Alternatives of the `%M` regex `[0-5]\d|\d`. -/
def altsMinute (cs : List Char) : List (Nat × List Char) :=
  (match cs with
   | a :: b :: rest =>
     if inR a '0' '5' && b.isDigit then [(d1 a * 10 + d1 b, rest)] else []
   | _ => []) ++
  (match cs with
   | c :: rest => if c.isDigit then [(d1 c, rest)] else []
   | _ => [])

/-- Alternatives of the `%S` regex `6[0-1]|[0-5]\d|\d`. -/
def altsSecond (cs : List Char) : List (Nat × List Char) :=
  (match cs with
   | '6' :: c :: rest => if inR c '0' '1' then [(60 + d1 c, rest)] else []
   | _ => []) ++
  (match cs with
   | a :: b :: rest =>
     if inR a '0' '5' && b.isDigit then [(d1 a * 10 + d1 b, rest)] else []
   | _ => []) ++
  (match cs with
   | c :: rest => if c.isDigit then [(d1 c, rest)] else []
   | _ => [])

/-- Backtracking over a list of alternatives: try each with the
continuation `k`, keeping the first success (regex alternation order). -/
def firstSome {α : Type} (alts : List (Nat × List Char))
    (k : Nat → List Char → Option α) : Option α :=
  match alts with
  | [] => none
  | (n, rest) :: more =>
    match k n rest with
    | some r => some r
    | none => firstSome more k

/-- `\s+` (a space in a strptime format string): one or more whitespace
characters, consumed greedily (the following token is a digit, so greediness
is never observable). -/
def skipWs1 (cs : List Char) : Option (List Char) :=
  match cs with
  | c :: rest => if isPyWs c then some (rest.dropWhile isPyWs) else none
  | [] => none

/-- Syntactic part of `datetime.strptime(s, "%Y:%m:%d %H:%M:%S")`: match the
compiled regex against the whole string (CPython raises when unconverted
data remains, hence the final empty-remainder check). -/
def strptimeRaw (s : String) : Option (Nat × Nat × Nat × Nat × Nat × Nat) :=
  match parse4Digits s.data with
  | none => none
  | some (y, cs1) =>
    match cs1 with
    | ':' :: cs2 =>
      firstSome (altsMonth cs2) (fun m cs3 =>
        match cs3 with
        | ':' :: cs4 =>
          firstSome (altsDay cs4) (fun d cs5 =>
            match skipWs1 cs5 with
            | none => none
            | some cs6 =>
              firstSome (altsHour cs6) (fun hh cs7 =>
                match cs7 with
                | ':' :: cs8 =>
                  firstSome (altsMinute cs8) (fun mm cs9 =>
                    match cs9 with
                    | ':' :: cs10 =>
                      firstSome (altsSecond cs10) (fun ss cs11 =>
                        if cs11 = [] then some (y, m, d, hh, mm, ss)
                        else none)
                    | _ => none)
                | _ => none)
          )
        | _ => none)
    | _ => none

/-- Days in a month of the proleptic Gregorian calendar. -/
def daysInMonth (y m : Nat) : Nat :=
  if m = 2 then
    if (y % 4 = 0 ∧ y % 100 ≠ 0) ∨ y % 400 = 0 then 29 else 28
  else if m = 4 ∨ m = 6 ∨ m = 9 ∨ m = 11 then 30 else 31

/-- The `datetime.datetime` constructor validation (year in MINYEAR..MAXYEAR,
valid calendar day, second 0..59; the regex already bounds the others). -/
def validDateTime (y m d hh mm ss : Nat) : Bool :=
  decide (1 ≤ y) && decide (y ≤ 9999) && decide (1 ≤ m) && decide (m ≤ 12) &&
  decide (1 ≤ d) && decide (d ≤ daysInMonth y m) && decide (hh ≤ 23) &&
  decide (mm ≤ 59) && decide (ss ≤ 59)

/-- `datetime.strptime(s, "%Y:%m:%d %H:%M:%S")`, returning `none` where
CPython raises `ValueError` (regex mismatch, leftover data, or an invalid
date passed to the `datetime` constructor). -/
def strptimeExif (s : String) : Option PyDateTime :=
  match strptimeRaw s with
  | some (y, m, d, hh, mm, ss) =>
    if validDateTime y m d hh mm ss then some ⟨y, m, d, hh, mm, ss⟩ else none
  | none => none

/-- Decimal rendering of `n` zero-padded to width `w`. -/
def padNum (w n : Nat) : List Char :=
  List.replicate (w - (Nat.repr n).length) '0' ++ (Nat.repr n).data

/-- Recursive worker for `pyStrftime`: `%Y %m %d %H %M %S %%` are expanded,
any other directive is passed through literally (glibc behaviour for
unknown directives). -/
def pyStrftimeAux (dt : PyDateTime) : List Char → List Char
  | '%' :: c :: rest =>
    (if c = 'Y' then padNum 4 dt.year
     else if c = 'm' then padNum 2 dt.month
     else if c = 'd' then padNum 2 dt.day
     else if c = 'H' then padNum 2 dt.hour
     else if c = 'M' then padNum 2 dt.minute
     else if c = 'S' then padNum 2 dt.second
     else if c = '%' then ['%']
     else ['%', c]) ++ pyStrftimeAux dt rest
  | c :: rest => c :: pyStrftimeAux dt rest
  | [] => []

/-- `dt.strftime(fmt)` for the directives the extractor's formats use. -/
def pyStrftime (fmt : String) (dt : PyDateTime) : String :=
  ⟨pyStrftimeAux dt fmt.data⟩

/-- The tag lookup of `ImageExifExtractor.extract_content` (lines 168-173):
`for tag_id in [36867, 306]: if tag_id in exifdata: take it and break`.
`exifdata` is modelled as an association list of tag ids to string values. -/
def exifLookup (exifdata : List (Nat × String)) : Option String :=
  match exifdata.find? (fun p => p.1 == 36867) with
  | some p => some p.2
  | none =>
    match exifdata.find? (fun p => p.1 == 306) with
    | some p => some p.2
    | none => none

/-- `ImageExifExtractor.extract_content` (lines 151-188) on the image's EXIF
data: empty values are falsy (`if not datetime_original: return None`),
parse failures return `none`, successes are re-rendered with
`date_format` (default `"%Y%m%d_%H%M%S"`). -/
def ImageExifExtractor.extract_content (exifdata : List (Nat × String))
    (date_format : String) : Option String :=
  match exifLookup exifdata with
  | none => none
  | some v =>
    if v = "" then none
    else
      match strptimeExif v with
      | some dt => some (pyStrftime date_format dt)
      | none => none

/-! ### Basic list and string lemmas -/

lemma data_mk (l : List Char) : (⟨l⟩ : String).data = l := rfl

lemma mk_eq_mk {a b : List Char} : (⟨a⟩ : String) = ⟨b⟩ ↔ a = b :=
  ⟨fun h => String.ext_iff.mp h, fun h => String.ext h⟩

lemma str_data_append (s t : String) : (s ++ t).data = s.data ++ t.data := by
  cases s
  cases t
  rfl

lemma str_length_data (s : String) : s.length = s.data.length := rfl

lemma str_ne_empty_iff {s : String} : s ≠ "" ↔ s.data ≠ [] := by
  rw [ne_eq, String.ext_iff]

lemma mem_of_head?_eq {l : List Char} {c : Char} (h : l.head? = some c) :
    c ∈ l := by
  cases l with
  | nil => simp at h
  | cons x xs =>
    simp at h
    simp [h]

lemma head?_append_left {l t : List Char} {c : Char} (h : l.head? = some c) :
    (l ++ t).head? = some c := by
  cases l with
  | nil => simp at h
  | cons x xs => simpa using h

lemma head?_take_pos {l : List Char} {k : Nat} (hk : 0 < k) :
    (l.take k).head? = l.head? := by
  cases l with
  | nil => simp
  | cons x xs =>
    cases k with
    | zero => omega
    | succ k => simp

lemma take_ne_nil {l : List Char} {k : Nat} (hk : 0 < k) (hl : l ≠ []) :
    l.take k ≠ [] := by
  cases l with
  | nil => exact absurd rfl hl
  | cons x xs =>
    cases k with
    | zero => omega
    | succ k => simp

lemma mem_of_mem_dropWhile {p : Char → Bool} :
    ∀ {l : List Char} {c : Char}, c ∈ l.dropWhile p → c ∈ l := by
  intro l
  induction l with
  | nil => intro c h; simpa [List.dropWhile] using h
  | cons x xs ih =>
    intro c h
    rw [List.dropWhile_cons] at h
    by_cases hp : p x
    · rw [if_pos hp] at h
      exact List.mem_cons_of_mem _ (ih h)
    · rw [if_neg hp] at h
      exact h

lemma head?_dropWhile_not {p : Char → Bool} :
    ∀ {l : List Char} {c : Char}, (l.dropWhile p).head? = some c →
      p c = false := by
  intro l
  induction l with
  | nil => intro c h; simp [List.dropWhile] at h
  | cons x xs ih =>
    intro c h
    rw [List.dropWhile_cons] at h
    by_cases hp : p x
    · rw [if_pos hp] at h
      exact ih h
    · rw [if_neg hp] at h
      simp at h
      subst h
      simpa using hp

lemma dropWhile_eq_self_of_head {p : Char → Bool} {l : List Char}
    (h : ∀ c, l.head? = some c → p c = false) : l.dropWhile p = l := by
  cases l with
  | nil => rfl
  | cons x xs =>
    rw [List.dropWhile_cons, if_neg]
    simp [h x rfl]

lemma dropWhile_is_suffix (p : Char → Bool) (l : List Char) :
    ∃ t, t ++ l.dropWhile p = l := by
  induction l with
  | nil => exact ⟨[], rfl⟩
  | cons x xs ih =>
    rw [List.dropWhile_cons]
    by_cases hp : p x
    · obtain ⟨t, ht⟩ := ih
      exact ⟨x :: t, by simp [hp, ht]⟩
    · exact ⟨[], by simp [hp]⟩

lemma rtrim_is_prefix (p : Char → Bool) (l : List Char) :
    ∃ t, rtrim p l ++ t = l := by
  obtain ⟨t, ht⟩ := dropWhile_is_suffix p l.reverse
  refine ⟨t.reverse, ?_⟩
  have := congrArg List.reverse ht
  simpa [rtrim] using this

lemma mem_rtrim {p : Char → Bool} {l : List Char} {c : Char}
    (h : c ∈ rtrim p l) : c ∈ l := by
  rw [rtrim, List.mem_reverse] at h
  have := mem_of_mem_dropWhile h
  simpa using this

lemma head?_rtrim {p : Char → Bool} {l : List Char} {c : Char}
    (h : (rtrim p l).head? = some c) : l.head? = some c := by
  obtain ⟨t, ht⟩ := rtrim_is_prefix p l
  rw [← ht]
  exact head?_append_left h

lemma getLast?_rtrim_not {p : Char → Bool} {l : List Char} {c : Char}
    (h : (rtrim p l).getLast? = some c) : p c = false := by
  rw [rtrim, List.getLast?_reverse] at h
  exact head?_dropWhile_not h

lemma rtrim_eq_self {p : Char → Bool} {l : List Char}
    (h : ∀ c, l.getLast? = some c → p c = false) : rtrim p l = l := by
  rw [rtrim, dropWhile_eq_self_of_head, List.reverse_reverse]
  intro c hc
  rw [List.head?_reverse] at hc
  exact h c hc

lemma map_eq_self_of_id {f : Char → Char} :
    ∀ {l : List Char}, (∀ c ∈ l, f c = c) → l.map f = l := by
  intro l
  induction l with
  | nil => intro _; rfl
  | cons x xs ih =>
    intro h
    simp [h x (by simp), ih fun c hc => h c (by simp [hc])]

lemma mem_of_getLast?_eq {l : List Char} {c : Char}
    (h : l.getLast? = some c) : c ∈ l := by
  have h2 : l.reverse.head? = some c := by simpa [List.head?_reverse] using h
  have := mem_of_head?_eq h2
  simpa using this

/-! ### Lemmas about the pathlib model -/

lemma headI_mem_of_ne_nil {α : Type} [Inhabited α] {l : List α}
    (h : l ≠ []) : l.headI ∈ l := by
  cases l with
  | nil => exact absurd rfl h
  | cons x xs => simp

lemma mem_of_getLast?_gen {α : Type} :
    ∀ {l : List α} {a : α}, l.getLast? = some a → a ∈ l := by
  intro l
  induction l with
  | nil => intro a h; simp at h
  | cons x xs ih =>
    intro a h
    cases xs with
    | nil => simp at h; simp [h]
    | cons y ys =>
      rw [List.getLast?_cons_cons] at h
      exact List.mem_cons_of_mem _ (ih h)

lemma splitChar_ne_nil (sep : Char) : ∀ l : List Char, splitChar sep l ≠ [] := by
  intro l
  cases l with
  | nil => simp [splitChar]
  | cons x xs =>
    rw [splitChar]
    by_cases hx : x = sep <;> simp [hx]

lemma mem_splitChar {sep : Char} :
    ∀ {l : List Char} {p : List Char}, p ∈ splitChar sep l →
      ∀ {c : Char}, c ∈ p → c ∈ l := by
  intro l
  induction l with
  | nil =>
    intro p hp c hc
    simp [splitChar] at hp
    subst hp
    simp at hc
  | cons x xs ih =>
    intro p hp c hc
    rw [splitChar] at hp
    by_cases hx : x = sep
    · rw [if_pos hx] at hp
      rcases List.mem_cons.mp hp with h | h
      · subst h; simp at hc
      · exact List.mem_cons_of_mem _ (ih h hc)
    · rw [if_neg hx] at hp
      rcases List.mem_cons.mp hp with h | h
      · subst h
        rcases List.mem_cons.mp hc with h2 | h2
        · simp [h2]
        · have hhead : (splitChar sep xs).headI ∈ splitChar sep xs :=
            headI_mem_of_ne_nil (splitChar_ne_nil sep xs)
          exact List.mem_cons_of_mem _ (ih hhead h2)
      · have htail : p ∈ splitChar sep xs := List.mem_of_mem_tail h
        exact List.mem_cons_of_mem _ (ih htail hc)

lemma splitChar_no_sep {sep : Char} :
    ∀ {l : List Char}, (∀ c ∈ l, c ≠ sep) → splitChar sep l = [l] := by
  intro l
  induction l with
  | nil => intro _; rfl
  | cons x xs ih =>
    intro h
    rw [splitChar, if_neg (h x (by simp)), ih fun c hc => h c (by simp [hc])]
    rfl

lemma mem_pathNameChars {s : String} {c : Char} (h : c ∈ pathNameChars s) :
    c ∈ s.data := by
  rw [pathNameChars] at h
  cases hgl : (pathParts s).getLast? with
  | none => rw [hgl] at h; simp at h
  | some q =>
    rw [hgl] at h
    simp at h
    have hq : q ∈ pathParts s := mem_of_getLast?_gen hgl
    have hq3 : q ∈ splitChar '/' s.data := List.mem_of_mem_filter hq
    exact mem_splitChar hq3 h

lemma pathNameChars_eq_self {s : String} (h1 : ∀ c ∈ s.data, c ≠ '/')
    (h2 : s.data ≠ []) (h3 : s.data ≠ ['.']) : pathNameChars s = s.data := by
  rw [pathNameChars, pathParts, splitChar_no_sep h1]
  have hpred : (!s.data.isEmpty && !(s.data == ['.'])) = true := by
    rw [Bool.and_eq_true]
    constructor
    · cases hd : s.data with
      | nil => exact absurd hd h2
      | cons a as => simp [List.isEmpty]
    · simpa using h3
  have hfe : List.filter (fun p => !p.isEmpty && !(p == ['.'])) [s.data] =
      [s.data] := by
    simp only [List.filter, hpred]
  rw [hfe]
  rfl

lemma nameStem_append_nameExt (n : List Char) :
    nameStem n ++ nameExt n = n := by
  cases hl : lastIdxOf '.' n with
  | none => simp [nameStem, nameExt, hl]
  | some i =>
    by_cases hc : 0 < i ∧ i + 1 < n.length
    · simp [nameStem, nameExt, hl, hc]
    · simp [nameStem, nameExt, hl, hc]

lemma mem_nameStem {n : List Char} {c : Char} (h : c ∈ nameStem n) :
    c ∈ n := by
  cases hl : lastIdxOf '.' n with
  | none => simpa [nameStem, hl] using h
  | some i =>
    simp only [nameStem, hl] at h
    by_cases hc : 0 < i ∧ i + 1 < n.length
    · rw [if_pos hc] at h; exact List.take_subset _ _ h
    · rw [if_neg hc] at h; exact h

lemma mem_nameExt {n : List Char} {c : Char} (h : c ∈ nameExt n) :
    c ∈ n := by
  cases hl : lastIdxOf '.' n with
  | none => simp [nameExt, hl] at h
  | some i =>
    simp only [nameExt, hl] at h
    by_cases hc : 0 < i ∧ i + 1 < n.length
    · rw [if_pos hc] at h; exact List.drop_subset _ _ h
    · rw [if_neg hc] at h; simp at h

lemma nameStem_ne_nil {n : List Char} (h : n ≠ []) : nameStem n ≠ [] := by
  cases hl : lastIdxOf '.' n with
  | none => simpa [nameStem, hl] using h
  | some i =>
    simp only [nameStem, hl]
    by_cases hc : 0 < i ∧ i + 1 < n.length
    · rw [if_pos hc]; exact take_ne_nil hc.1 h
    · rw [if_neg hc]; exact h

lemma head?_nameStem (n : List Char) : (nameStem n).head? = n.head? := by
  cases hl : lastIdxOf '.' n with
  | none => simp [nameStem, hl]
  | some i =>
    simp only [nameStem, hl]
    by_cases hc : 0 < i ∧ i + 1 < n.length
    · rw [if_pos hc]; exact head?_take_pos hc.1
    · rw [if_neg hc]

lemma mem_pathStem {s : String} {c : Char} (h : c ∈ (pathStem s).data) :
    c ∈ s.data :=
  mem_pathNameChars (mem_nameStem h)

lemma mem_pathExt {s : String} {c : Char} (h : c ∈ (pathExt s).data) :
    c ∈ s.data :=
  mem_pathNameChars (mem_nameExt h)

/-! ### Lemmas about truncation -/

lemma pyTake_length (s : String) (n : Nat) :
    (pyTake s n).length = min n s.length := by
  rw [str_length_data (pyTake s n), pyTake, data_mk, List.length_take,
    str_length_data]

lemma truncPreserve_length (s : String) (ml : Nat) :
    (truncPreserve s ml).length ≤ ml := by
  rw [truncPreserve]
  by_cases h1 : ml < s.length
  · rw [if_pos h1]
    by_cases h2 : (pathExt s).length < ml
    · rw [if_pos h2]
      rw [String.length_append, pyTake_length]
      have : min (ml - (pathExt s).length) (pathStem s).length ≤
          ml - (pathExt s).length := Nat.min_le_left _ _
      omega
    · rw [if_neg h2, pyTake_length]
      omega
  · rw [if_neg h1]
    omega

lemma truncPreserve_subset {s : String} {ml : Nat} {c : Char}
    (h : c ∈ (truncPreserve s ml).data) : c ∈ s.data := by
  rw [truncPreserve] at h
  by_cases h1 : ml < s.length
  · rw [if_pos h1] at h
    by_cases h2 : (pathExt s).length < ml
    · rw [if_pos h2, str_data_append] at h
      rcases List.mem_append.mp h with h3 | h3
    
      · exact mem_pathStem (List.take_subset _ _ h3)
      · exact mem_pathExt h3
    · rw [if_neg h2] at h
      exact List.take_subset _ _ h
  · rw [if_neg h1] at h
    exact h

lemma truncPreserve_head {s : String} {ml : Nat} (hml : 1 ≤ ml)
    (hs : s.data ≠ []) (hsl : ∀ c ∈ s.data, c ≠ '/') (hdot : s.data ≠ ['.']) :
    (truncPreserve s ml).data.head? = s.data.head? := by
  rw [truncPreserve]
  by_cases h1 : ml < s.length
  · rw [if_pos h1]
    have hname : pathNameChars s = s.data := pathNameChars_eq_self hsl hs hdot
    by_cases h2 : (pathExt s).length < ml
    · rw [if_pos h2, str_data_append]
      have hstem : (pathStem s).data = nameStem s.data := by
        rw [pathStem, data_mk, hname]
      obtain ⟨c, hc⟩ : ∃ c, s.data.head? = some c := by
        cases hd : s.data with
        | nil => exact absurd hd hs
        | cons x xs => exact ⟨x, by rfl⟩
      have hA : (pyTake (pathStem s) (ml - (pathExt s).length)).data.head? =
          some c := by
        rw [pyTake, data_mk,
          head?_take_pos (by omega : 0 < ml - (pathExt s).length), hstem,
          head?_nameStem, hc]
      rw [head?_append_left hA, hc]
    · rw [if_neg h2, pyTake, data_mk]
      exact head?_take_pos hml
  · rw [if_neg h1]

/-! ### Lemmas about stripping and the core sanitization steps -/

lemma mem_pyStrip {s : String} {c : Char} (h : c ∈ (pyStrip s).data) :
    c ∈ s.data := by
  rw [pyStrip, data_mk] at h
  exact mem_of_mem_dropWhile (mem_rtrim h)

lemma pyStrip_head_not {s : String} {c : Char}
    (h : (pyStrip s).data.head? = some c) : isStripChar c = false := by
  rw [pyStrip, data_mk] at h
  exact head?_dropWhile_not (head?_rtrim h)

lemma pyStrip_last_not {s : String} {c : Char}
    (h : (pyStrip s).data.getLast? = some c) : isStripChar c = false := by
  rw [pyStrip, data_mk] at h
  exact getLast?_rtrim_not h

lemma pyStrip_eq_self {s : String}
    (hh : ∀ c, s.data.head? = some c → isStripChar c = false)
    (hl : ∀ c, s.data.getLast? = some c → isStripChar c = false) :
    pyStrip s = s := by
  have h1 : s.data.dropWhile isStripChar = s.data :=
    dropWhile_eq_self_of_head hh
  cases s with
  | mk l =>
    rw [pyStrip]
    rw [mk_eq_mk]
    rw [data_mk] at h1
    rw [h1]
    exact rtrim_eq_self fun c hc => hl c hc

lemma replaceInvalid_chars {s : String} :
    ∀ c ∈ (replaceInvalid s).data, isInvalidChar c = false := by
  intro c hc
  rw [replaceInvalid, data_mk] at hc
  obtain ⟨a, _, rfl⟩ := List.mem_map.mp hc
  by_cases ha : isInvalidChar a
  · rw [if_pos ha]; decide
  · rw [if_neg ha]; simpa using ha

lemma mem_replaceInvalid {s : String} {c : Char}
    (h : c ∈ (replaceInvalid s).data) : c = '_' ∨ c ∈ s.data := by
  rw [replaceInvalid, data_mk] at h
  obtain ⟨a, ha, rfl⟩ := List.mem_map.mp h
  by_cases h2 : isInvalidChar a
  · rw [if_pos h2]; left; rfl
  · rw [if_neg h2]; right; exact ha

lemma replaceInvalid_eq_self {s : String}
    (h : ∀ c ∈ s.data, isInvalidChar c = false) : replaceInvalid s = s := by
  cases s with
  | mk l =>
    rw [replaceInvalid, mk_eq_mk]
    exact map_eq_self_of_id fun c hc => by
      rw [if_neg (by simp [h c hc])]

lemma replaceSpaceChars_no_space {s : String} :
    ∀ c ∈ (replaceSpaceChars s).data, c ≠ ' ' := by
  intro c hc
  rw [replaceSpaceChars, data_mk] at hc
  obtain ⟨a, _, rfl⟩ := List.mem_map.mp hc
  by_cases ha : a == ' '
  · rw [if_pos ha]; decide
  · rw [if_neg ha]; simpa using ha

lemma mem_replaceSpaceChars {s : String} {c : Char}
    (h : c ∈ (replaceSpaceChars s).data) : c = '_' ∨ c ∈ s.data := by
  rw [replaceSpaceChars, data_mk] at h
  obtain ⟨a, ha, rfl⟩ := List.mem_map.mp h
  by_cases h2 : a == ' '
  · rw [if_pos h2]; left; rfl
  · rw [if_neg h2]; right; exact ha

lemma replaceSpaceChars_eq_self {s : String}
    (h : ∀ c ∈ s.data, c ≠ ' ') : replaceSpaceChars s = s := by
  cases s with
  | mk l =>
    rw [replaceSpaceChars, mk_eq_mk]
    exact map_eq_self_of_id fun c hc => by
      rw [if_neg (by simp [h c hc])]

lemma unnamed_chars :
    ∀ c ∈ ("unnamed" : String).data,
      isInvalidChar c = false ∧ c ≠ ' ' ∧ c ≠ '/' ∧ isStripChar c = false := by
  decide

lemma mem_underscore_append {s : String} {c : Char}
    (h : c ∈ ("_" ++ s).data) : c = '_' ∨ c ∈ s.data := by
  rw [str_data_append] at h
  have hu : ("_" : String).data = ['_'] := rfl
  rw [hu] at h
  simpa using h

lemma ite_empty_cases (P : String → Prop) (s : String) (h1 : P "unnamed")
    (h2 : s ≠ "" → P s) : P (if s = "" then "unnamed" else s) := by
  split
  · exact h1
  · exact h2 (by assumption)

lemma mem_ite_reserved {f2 : String} {c : Char} {cond : Prop}
    [Decidable cond] (h : c ∈ (if cond then "_" ++ f2 else f2).data) :
    c = '_' ∨ c ∈ f2.data := by
  split at h
  · exact mem_underscore_append h
  · exact Or.inr h

lemma unnamed_ne_empty : ("unnamed" : String) ≠ "" := by
  decide

lemma sanitizeCore_ne_empty (f1 : String) (rs : Bool) :
    sanitizeCore f1 rs ≠ "" := by
  simp only [sanitizeCore]
  exact ite_empty_cases (fun x => x ≠ "") _ unnamed_ne_empty fun h => h

lemma sanitizeCore_chars (f1 : String) (rs : Bool) :
    ∀ c ∈ (sanitizeCore f1 rs).data,
      isInvalidChar c = false ∧ (rs = true → c ≠ ' ') := by
  simp only [sanitizeCore]
  refine ite_empty_cases
    (fun x => ∀ c ∈ x.data, isInvalidChar c = false ∧ (rs = true → c ≠ ' '))
    _
    (fun c hc => ⟨(unnamed_chars c hc).1, fun _ => (unnamed_chars c hc).2.1⟩)
    (fun _ c hc => ?_)
  have hc4 := mem_pyStrip hc
  cases hrs : rs with
  | false =>
    rw [hrs, if_neg (by simp)] at hc4
    refine ⟨?_, by simp [hrs]⟩
    rcases mem_ite_reserved hc4 with h | h
    · subst h; decide
    · exact replaceInvalid_chars c h
  | true =>
    rw [hrs, if_pos rfl] at hc4
    refine ⟨?_, fun _ => replaceSpaceChars_no_space c hc4⟩
    rcases mem_replaceSpaceChars hc4 with h | h
    · subst h; decide
    · rcases mem_ite_reserved h with h2 | h2
      · subst h2; decide
      · exact replaceInvalid_chars c h2

lemma sanitizeCore_no_slash {f1 : String} (hs : ∀ c ∈ f1.data, c ≠ '/')
    (rs : Bool) : ∀ c ∈ (sanitizeCore f1 rs).data, c ≠ '/' := by
  simp only [sanitizeCore]
  refine ite_empty_cases (fun x => ∀ c ∈ x.data, c ≠ '/') _
    (fun c hc => (unnamed_chars c hc).2.2.1) (fun _ c hc => ?_)
  have hc4 := mem_pyStrip hc
  have hri : ∀ x, x ∈ (replaceInvalid f1).data → x ≠ '/' := by
    intro x hx
    rcases mem_replaceInvalid hx with h | h
    · subst h; decide
    · exact hs x h
  cases hrs : rs with
  | false =>
    rw [hrs, if_neg (by simp)] at hc4
    rcases mem_ite_reserved hc4 with h | h
    · subst h; decide
    · exact hri c h
  | true =>
    rw [hrs, if_pos rfl] at hc4
    rcases mem_replaceSpaceChars hc4 with h | h
    · subst h; decide
    · rcases mem_ite_reserved h with h2 | h2
      · subst h2; decide
      · exact hri c h2

lemma unnamed_data :
    ("unnamed" : String).data = ['u', 'n', 'n', 'a', 'm', 'e', 'd'] := rfl

lemma sanitizeCore_head_not (f1 : String) (rs : Bool) :
    ∀ c, (sanitizeCore f1 rs).data.head? = some c → isStripChar c = false := by
  simp only [sanitizeCore]
  refine ite_empty_cases
    (fun x => ∀ c, x.data.head? = some c → isStripChar c = false) _ ?_
    (fun _ c hc => pyStrip_head_not hc)
  intro c hc
  rw [unnamed_data] at hc
  simp at hc
  subst hc
  decide

lemma sanitizeCore_last_not (f1 : String) (rs : Bool) :
    ∀ c, (sanitizeCore f1 rs).data.getLast? = some c →
      isStripChar c = false := by
  simp only [sanitizeCore]
  refine ite_empty_cases
    (fun x => ∀ c, x.data.getLast? = some c → isStripChar c = false) _ ?_
    (fun _ c hc => pyStrip_last_not hc)
  intro c hc
  rw [unnamed_data] at hc
  simp at hc
  subst hc
  decide

lemma sanitizeCore_fixed {fn : String} {rs : Bool} (h0 : fn ≠ "")
    (h2 : ∀ c ∈ fn.data, isInvalidChar c = false)
    (h3 : pyUpper (pathStem fn) ∉ reservedNames)
    (h4 : rs = true → ∀ c ∈ fn.data, c ≠ ' ')
    (h5 : ∀ c, fn.data.head? = some c → isStripChar c = false)
    (h6 : ∀ c, fn.data.getLast? = some c → isStripChar c = false) :
    sanitizeCore fn rs = fn := by
  simp only [sanitizeCore]
  rw [replaceInvalid_eq_self h2, if_neg h3]
  have h4eq : (if rs then replaceSpaceChars fn else fn) = fn := by
    cases hrs : rs with
    | false => rw [if_neg (by simp)]
    | true => rw [if_pos rfl]; exact replaceSpaceChars_eq_self (h4 hrs)
  rw [h4eq, pyStrip_eq_self h5 h6, if_neg h0]

/-! ### Assembled facts about `sanitize_filename` -/

lemma sf_chars (nfkd : String → String) (fn : String) (nu rs : Bool)
    (ml : Nat) :
    ∀ c ∈ (sanitize_filename nfkd fn nu rs ml).data,
      isInvalidChar c = false ∧ (rs = true → c ≠ ' ') := by
  rw [sanitize_filename]
  split
  · exact fun c hc =>
      ⟨(unnamed_chars c hc).1, fun _ => (unnamed_chars c hc).2.1⟩
  · exact fun c hc => sanitizeCore_chars _ rs c (truncPreserve_subset hc)

lemma sf_length {nfkd : String → String} {fn : String} {nu rs : Bool}
    {ml : Nat} (hfn : fn ≠ "") :
    (sanitize_filename nfkd fn nu rs ml).length ≤ ml := by
  rw [sanitize_filename, if_neg hfn]
  exact truncPreserve_length _ _

lemma sf_head_not {nfkd : String → String} {fn : String} {nu rs : Bool}
    {ml : Nat} (hfn : fn ≠ "") (hml : 1 ≤ ml)
    (hsl : ∀ c ∈ (if nu then nfkd fn else fn).data, c ≠ '/') :
    (sanitize_filename nfkd fn nu rs ml).data ≠ [] ∧
    ∀ c, (sanitize_filename nfkd fn nu rs ml).data.head? = some c →
      isStripChar c = false := by
  rw [sanitize_filename, if_neg hfn]
  have hcore_ne : (sanitizeCore (if nu then nfkd fn else fn) rs).data ≠ [] :=
    str_ne_empty_iff.mp (sanitizeCore_ne_empty _ rs)
  have hslash : ∀ c ∈ (sanitizeCore (if nu then nfkd fn else fn) rs).data,
      c ≠ '/' := sanitizeCore_no_slash hsl rs
  have hdot : (sanitizeCore (if nu then nfkd fn else fn) rs).data ≠ ['.'] := by
    intro hd
    have := sanitizeCore_head_not (if nu then nfkd fn else fn) rs '.'
      (by rw [hd]; rfl)
    simp [isStripChar] at this
  have hhead := truncPreserve_head hml hcore_ne hslash hdot
  constructor
  · intro hnil
    rw [hnil] at hhead
    obtain ⟨c, hc⟩ : ∃ c,
        (sanitizeCore (if nu then nfkd fn else fn) rs).data.head? = some c := by
      cases hd : (sanitizeCore (if nu then nfkd fn else fn) rs).data with
      | nil => exact absurd hd hcore_ne
      | cons x xs => exact ⟨x, rfl⟩
    rw [hc] at hhead
    exact Option.noConfusion hhead
  · intro c hc
    rw [hhead] at hc
    exact sanitizeCore_head_not _ rs c hc

lemma sf_fixed {nfkd : String → String} {fn : String} {nu rs : Bool}
    {ml : Nat} (h0 : fn ≠ "") (h1 : nu = true → nfkd fn = fn)
    (h2 : ∀ c ∈ fn.data, isInvalidChar c = false)
    (h3 : pyUpper (pathStem fn) ∉ reservedNames)
    (h4 : rs = true → ∀ c ∈ fn.data, c ≠ ' ')
    (h5 : ∀ c, fn.data.head? = some c → isStripChar c = false)
    (h6 : ∀ c, fn.data.getLast? = some c → isStripChar c = false)
    (h7 : fn.length ≤ ml) :
    sanitize_filename nfkd fn nu rs ml = fn := by
  rw [sanitize_filename, if_neg h0]
  have hf1 : (if nu then nfkd fn else fn) = fn := by
    cases hnu : nu with
    | false => rw [if_neg (by simp)]
    | true => rw [if_pos rfl]; exact h1 hnu
  rw [hf1, sanitizeCore_fixed h0 h2 h3 h4 h5 h6, truncPreserve, if_neg (by omega)]

/-! ### Lemmas about the conflict-resolution loop -/

lemma ra_not_mem {stem ext : String} {fmt : Nat → String}
    {names : List String} :
    ∀ {fuel i : Nat} {r : String},
      resolveAttempts stem ext fmt names i fuel = some r → r ∉ names := by
  intro fuel
  induction fuel with
  | zero => intro i r h; simp [resolveAttempts] at h
  | succ fuel ih =>
    intro i r h
    rw [resolveAttempts] at h
    split at h
    · exact ih h
    · rw [Option.some_inj] at h
      subst h
      assumption

lemma ra_least {stem ext : String} {fmt : Nat → String}
    {names : List String} :
    ∀ {fuel i k : Nat}, i ≤ k → k < i + fuel →
      (stem ++ fmt k ++ ext) ∉ names →
      (∀ j, i ≤ j → j < k → (stem ++ fmt j ++ ext) ∈ names) →
      resolveAttempts stem ext fmt names i fuel =
        some (stem ++ fmt k ++ ext) := by
  intro fuel
  induction fuel with
  | zero => intro i k h1 h2 _ _; omega
  | succ fuel ih =>
    intro i k h1 h2 hfree hbusy
    rw [resolveAttempts]
    by_cases hik : i = k
    · subst hik
      rw [if_neg hfree]
    · have hlt : i < k := by omega
      rw [if_pos (hbusy i (le_refl i) hlt)]
      exact ih (by omega) (by omega) hfree fun j hj1 hj2 => hbusy j (by omega) hj2

lemma ra_none {stem ext : String} {fmt : Nat → String}
    {names : List String} :
    ∀ {fuel i : Nat},
      (∀ j, i ≤ j → j < i + fuel → (stem ++ fmt j ++ ext) ∈ names) →
      resolveAttempts stem ext fmt names i fuel = none := by
  intro fuel
  induction fuel with
  | zero => intro i _; rfl
  | succ fuel ih =>
    intro i hall
    rw [resolveAttempts, if_pos (hall i (le_refl i) (by omega))]
    exact ih fun j hj1 hj2 => hall j (by omega) (by omega)

lemma ra_some_of_free {stem ext : String} {fmt : Nat → String}
    {names : List String} :
    ∀ (fuel i : Nat),
      (∃ j, i ≤ j ∧ j < i + fuel ∧ (stem ++ fmt j ++ ext) ∉ names) →
      ∃ r, resolveAttempts stem ext fmt names i fuel = some r ∧
        r ∉ names := by
  intro fuel
  induction fuel with
  | zero =>
    intro i h
    obtain ⟨j, h1, h2, _⟩ := h
    omega
  | succ fuel ih =>
    intro i h
    obtain ⟨j, h1, h2, h3⟩ := h
    rw [resolveAttempts]
    by_cases hi : (stem ++ fmt i ++ ext) ∈ names
    · rw [if_pos hi]
      have hij : i ≠ j := fun he => h3 (he ▸ hi)
      exact ih _ ⟨j, by omega, by omega, h3⟩
    · rw [if_neg hi]
      exact ⟨stem ++ fmt i ++ ext, rfl, hi⟩

/-! ### Lemmas about `truncate_filename`, the facade and the batch loop -/

lemma truncate_of_le {fn : String} {ml : Nat} (pe : Bool)
    (h : fn.length ≤ ml) : truncate_filename fn ml pe = fn := by
  rw [truncate_filename, if_pos h]

lemma truncate_length_le {fn : String} {ml : Nat} {pe : Bool}
    (h : ¬fn.length ≤ ml) : (truncate_filename fn ml pe).length ≤ ml := by
  rw [truncate_filename, if_neg h]
  by_cases hpe : pe = false
  · rw [if_pos hpe, pyTake_length]
    omega
  · rw [if_neg hpe]
    by_cases hext : ml ≤ (pathExt fn).length
    · rw [if_pos hext, pyTake_length]
      omega
    · rw [if_neg hext]
      by_cases havail : 0 < ml - (pathExt fn).length
      · rw [if_pos havail, String.length_append, pyTake_length]
        have : min (ml - (pathExt fn).length) (pathStem fn).length ≤
            ml - (pathExt fn).length := Nat.min_le_left _ _
        omega
      · rw [if_neg havail, pyTake_length]
        omega

lemma facade_plain {cfg : SanitizerConfig} {nfkd : String → String}
    {ts fn : String} {dir : Option Directory} (hc : cfg.case_style = none)
    (hfn : fn ≠ "") :
    FilenameSanitizer.sanitize cfg nfkd ts fn dir "" "" =
      match dir with
      | some d =>
        if cfg.conflict_resolution then
          resolve_filename_conflicts
            (sanitize_filename nfkd fn cfg.normalize_unicode
              cfg.replace_spaces cfg.max_length)
            d cfg.conflict_suffix_format 1000 ts
        else
          sanitize_filename nfkd fn cfg.normalize_unicode cfg.replace_spaces
            cfg.max_length
      | none =>
        sanitize_filename nfkd fn cfg.normalize_unicode cfg.replace_spaces
          cfg.max_length := by
  simp only [FilenameSanitizer.sanitize, hc]
  rw [if_neg hfn, if_neg (by simp : ¬(("" : String) ≠ "" ∨ ("" : String) ≠ ""))]

lemma batchAux_length (cfg : SanitizerConfig) (nfkd : String → String)
    (ts : String) (dir : Option Directory) (pre suf : String) :
    ∀ (l used : List String),
      (batchAux cfg nfkd ts dir pre suf used l).length = l.length := by
  intro l
  induction l with
  | nil => intro used; rfl
  | cons o rest ih =>
    intro used
    rw [batchAux]
    simp only [List.length_cons]
    rw [ih]

lemma batchRetry_form {used : List String} {stem ext : String}
    {fmt : Nat → String} :
    ∀ {fuel counter : Nat} {cur : String}, cur ∈ used → 1 ≤ fuel →
      ∃ c, counter ≤ c ∧ c < counter + fuel ∧
        batchRetry used stem ext fmt counter fuel cur =
          stem ++ fmt c ++ ext := by
  intro fuel
  induction fuel with
  | zero => intro counter cur _ h; omega
  | succ fuel ih =>
    intro counter cur hmem _
    rw [batchRetry, if_pos hmem]
    cases fuel with
    | zero =>
      exact ⟨counter, le_refl _, by omega, rfl⟩
    | succ fuel2 =>
      by_cases hnext : (stem ++ fmt counter ++ ext) ∈ used
      · obtain ⟨c, h1, h2, h3⟩ := ih hnext (by omega)
        exact ⟨c, by omega, by omega, h3⟩
      · rw [batchRetry, if_neg hnext]
        exact ⟨counter, le_refl _, by omega, rfl⟩

lemma batchAux_spec (cfg : SanitizerConfig) (nfkd : String → String)
    (ts : String) (dir : Option Directory) (pre suf : String) :
    ∀ (l used : List String) (k : Nat), k < l.length →
      ∃ used2, (∀ x ∈ used, x ∈ used2) ∧
        (∀ j, j < k →
          ((batchAux cfg nfkd ts dir pre suf used l).getD j ("", "")).2 ∈
            used2) ∧
        (batchAux cfg nfkd ts dir pre suf used l).getD k ("", "") =
          (l.getD k "", batchStep cfg used2
            (FilenameSanitizer.sanitize cfg nfkd ts (l.getD k "") dir pre
              suf)) := by
  intro l
  induction l with
  | nil => intro used k hk; simp at hk
  | cons o rest ih =>
    intro used k hk
    rw [batchAux]
    cases k with
    | zero =>
      refine ⟨used, fun x hx => hx, fun j hj => by omega, ?_⟩
      rfl
    | succ k2 =>
      obtain ⟨used2, hsub, hprev, hget⟩ := ih
        (batchStep cfg used
          (FilenameSanitizer.sanitize cfg nfkd ts o dir pre suf) :: used)
        k2 (by simpa using hk)
      refine ⟨used2, fun x hx => hsub x (by simp [hx]), ?_, ?_⟩
      · intro j hj
        cases j with
        | zero =>
          simp only [List.getD_cons_zero]
          exact hsub _ (by simp)
        | succ j2 =>
          simp only [List.getD_cons_succ]
          exact hprev j2 (by omega)
      · simp only [List.getD_cons_succ]
        exact hget

/-! ### Claim theorems -/

/-- C9: `truncate_filename` is idempotent: for every filename, max_length and
preserve_extension flag, applying it twice with the same arguments equals
applying it once. -/
theorem truncate_filename_idempotent (fn : String) (ml : Nat) (pe : Bool) :
    truncate_filename (truncate_filename fn ml pe) ml pe =
      truncate_filename fn ml pe := by
  by_cases h : fn.length ≤ ml
  · rw [truncate_of_le pe h, truncate_of_le pe h]
  · exact truncate_of_le pe (truncate_length_le h)

/-- C4: conflict resolution returns the candidate unchanged when the target
directory does not exist or the candidate is not taken; otherwise it returns
`stem ++ fmt i ++ ext` for the smallest free `i` in `1..max_attempts`; if all
attempts collide it appends `_` and the timestamp to the stem, without
re-checking the fallback. In particular `"a.txt"` against `{"a.txt"}` yields
`"a(1).txt"`, and against `{"a.txt", "a(1).txt"}` yields `"a(2).txt"`. -/
theorem resolve_conflicts_spec :
    (∀ (base : String) (d : Directory) (fmt : Nat → String) (ma : Nat)
      (ts : String), d.present = false ∨ base ∉ d.names →
      resolve_filename_conflicts base d fmt ma ts = base) ∧
    (∀ (base : String) (d : Directory) (fmt : Nat → String) (ma : Nat)
      (ts : String) (i : Nat), d.present = true → base ∈ d.names →
      1 ≤ i → i ≤ ma →
      (pathStem base ++ fmt i ++ pathExt base) ∉ d.names →
      (∀ j, 1 ≤ j → j < i →
        (pathStem base ++ fmt j ++ pathExt base) ∈ d.names) →
      resolve_filename_conflicts base d fmt ma ts =
        pathStem base ++ fmt i ++ pathExt base) ∧
    (∀ (base : String) (d : Directory) (fmt : Nat → String) (ma : Nat)
      (ts : String), d.present = true → base ∈ d.names →
      (∀ i, 1 ≤ i → i ≤ ma →
        (pathStem base ++ fmt i ++ pathExt base) ∈ d.names) →
      resolve_filename_conflicts base d fmt ma ts =
        pathStem base ++ "_" ++ ts ++ pathExt base) ∧
    (∀ ts, resolve_filename_conflicts "a.txt" ⟨true, ["a.txt"]⟩ defaultFmt
      1000 ts = "a(1).txt") ∧
    (∀ ts, resolve_filename_conflicts "a.txt" ⟨true, ["a.txt", "a(1).txt"]⟩
      defaultFmt 1000 ts = "a(2).txt") := by
  refine ⟨?_, ?_, ?_, ?_, ?_⟩
  · intro base d fmt ma ts h
    rcases h with h | h
    · rw [resolve_filename_conflicts, if_pos h]
    · rw [resolve_filename_conflicts]
      by_cases hp : d.present = false
      · rw [if_pos hp]
      · rw [if_neg hp, if_neg h]
  · intro base d fmt ma ts i hp hmem h1 h2 hfree hbusy
    rw [resolve_filename_conflicts, if_neg (by simp [hp]), if_pos hmem,
      ra_least h1 (by omega) hfree fun j hj1 hj2 => hbusy j hj1 hj2]
  · intro base d fmt ma ts hp hmem hall
    rw [resolve_filename_conflicts, if_neg (by simp [hp]), if_pos hmem,
      ra_none fun j hj1 hj2 => hall j hj1 (by omega)]
  · intro ts
    rfl
  · intro ts
    rfl

/-- Witness for C4: the first numbered attempt is taken for `"a.txt"` against
a directory that already holds `"a.txt"`, by the second conjunct of
`resolve_conflicts_spec` at `i = 1`. -/
theorem resolve_conflicts_spec_witness :
    resolve_filename_conflicts "a.txt" ⟨true, ["a.txt"]⟩ defaultFmt 1000
      "20230101_000000" = "a(1).txt" := by
  have h := resolve_conflicts_spec.2.1 "a.txt" ⟨true, ["a.txt"]⟩ defaultFmt
    1000 "20230101_000000" 1 rfl (by decide) (by omega) (by omega)
    (by decide) (fun j hj1 hj2 => by omega)
  simpa using h

lemma facade_plain_none {cfg : SanitizerConfig} {nfkd : String → String}
    {ts fn : String} (hc : cfg.case_style = none) (hfn : fn ≠ "") :
    FilenameSanitizer.sanitize cfg nfkd ts fn none "" "" =
      sanitize_filename nfkd fn cfg.normalize_unicode cfg.replace_spaces
        cfg.max_length := by
  rw [facade_plain hc hfn]

lemma facade_plain_some {cfg : SanitizerConfig} {nfkd : String → String}
    {ts fn : String} (d : Directory) (hc : cfg.case_style = none)
    (hfn : fn ≠ "") :
    FilenameSanitizer.sanitize cfg nfkd ts fn (some d) "" "" =
      (if cfg.conflict_resolution then
        resolve_filename_conflicts
          (sanitize_filename nfkd fn cfg.normalize_unicode cfg.replace_spaces
            cfg.max_length) d cfg.conflict_suffix_format 1000 ts
      else
        sanitize_filename nfkd fn cfg.normalize_unicode cfg.replace_spaces
          cfg.max_length) := by
  rw [facade_plain hc hfn]

/-- C3 (counterexample): the claim promises the result is never longer than
`max_length` for all strings, but the empty string short-circuits to
`"unnamed"` (7 characters) before truncation, so with `max_length = 3` the
bound fails. -/
theorem sanitize_filename_length_cex :
    sanitize_filename id "" false false 3 = "unnamed" ∧
    3 < (sanitize_filename id "" false false 3).length := by
  decide

/-- C3 (amended): `sanitize_filename` output contains no forbidden character
(`< > : " | ? * \`, control characters 0x00-0x1F, 0x7F), and for every
non-empty input its length is at most `max_length`. -/
theorem sanitize_filename_forbidden_chars (nfkd : String → String)
    (fn : String) (nu rs : Bool) (ml : Nat) :
    (∀ c ∈ (sanitize_filename nfkd fn nu rs ml).data,
      isInvalidChar c = false) ∧
    (fn ≠ "" → (sanitize_filename nfkd fn nu rs ml).length ≤ ml) :=
  ⟨fun c hc => (sf_chars nfkd fn nu rs ml c hc).1, fun h => sf_length h⟩

/-- Witness for C3 (amended) at a concrete input with a forbidden `<`. -/
theorem sanitize_filename_forbidden_chars_witness :
    (∀ c ∈ (sanitize_filename id "a<b.txt" false false 255).data,
      isInvalidChar c = false) ∧
    (sanitize_filename id "a<b.txt" false false 255).length ≤ 255 :=
  ⟨(sanitize_filename_forbidden_chars id "a<b.txt" false false 255).1,
   (sanitize_filename_forbidden_chars id "a<b.txt" false false 255).2
     (by decide)⟩

/-- C2 (counterexample): the reserved-name check runs before stripping, so
`" CON.txt"` (stem `" CON"`, not reserved) is returned as `"CON.txt"`, whose
stem is exactly the reserved device name `"CON"`. -/
theorem sanitize_filename_reserved_cex :
    sanitize_filename id " CON.txt" false false 255 = "CON.txt" ∧
    pathStem (sanitize_filename id " CON.txt" false false 255) = "CON" ∧
    "CON" ∈ reservedNames := by
  decide

/-- C2 (amended): for `max_length ≥ 1`, a non-empty input whose
(possibly normalized) form contains no `/`, the result is non-empty, at most
`max_length` characters, and not purely dots and spaces; the reserved-stem
guarantee is dropped (the check runs on the intermediate name, before
stripping and truncation). -/
theorem sanitize_filename_invariants (nfkd : String → String) (fn : String)
    (nu rs : Bool) (ml : Nat) (hml : 1 ≤ ml) (hfn : fn ≠ "")
    (hsl : ∀ c ∈ (if nu then nfkd fn else fn).data, c ≠ '/') :
    sanitize_filename nfkd fn nu rs ml ≠ "" ∧
    (sanitize_filename nfkd fn nu rs ml).length ≤ ml ∧
    ∃ c ∈ (sanitize_filename nfkd fn nu rs ml).data, c ≠ '.' ∧ c ≠ ' ' := by
  obtain ⟨hne, hhd⟩ := sf_head_not hfn hml hsl
  refine ⟨str_ne_empty_iff.mpr hne, sf_length hfn, ?_⟩
  obtain ⟨c, hc⟩ : ∃ c,
      (sanitize_filename nfkd fn nu rs ml).data.head? = some c := by
    cases hd : (sanitize_filename nfkd fn nu rs ml).data with
    | nil => exact absurd hd hne
    | cons x xs => exact ⟨x, rfl⟩
  have hstrip := hhd c hc
  rw [isStripChar] at hstrip
  simp at hstrip
  exact ⟨c, mem_of_head?_eq hc, hstrip⟩

/-- Witness for C2 (amended) at `"data.txt"`. -/
theorem sanitize_filename_invariants_witness :
    sanitize_filename id "data.txt" false false 255 ≠ "" ∧
    (sanitize_filename id "data.txt" false false 255).length ≤ 255 ∧
    ∃ c ∈ (sanitize_filename id "data.txt" false false 255).data,
      c ≠ '.' ∧ c ≠ ' ' :=
  sanitize_filename_invariants id "data.txt" false false 255 (by omega)
    (by decide) (by decide)

/-- C10 (counterexample): `sanitize_filename` is not idempotent — truncating
`"ab cd"` to 3 characters yields `"ab "` with a trailing space, which a
second application strips to `"ab"`. -/
theorem sanitize_filename_idem_cex :
    ¬(sanitize_filename id (sanitize_filename id "ab cd" false false 3)
        false false 3 =
      sanitize_filename id "ab cd" false false 3) := by
  decide

/-- C10 (amended): `sanitize_filename` (with unicode normalization off) is
idempotent on every output that is non-empty, within `max_length`, neither
starts nor ends with a dot or space, and whose stem is not
(case-insensitively) a reserved device name. -/
theorem sanitize_filename_idempotent_amended (nfkd : String → String)
    (fn y : String) (rs : Bool) (ml : Nat)
    (hy : y = sanitize_filename nfkd fn false rs ml) (hne : y ≠ "")
    (hlen : y.length ≤ ml)
    (hhd : ∀ c, y.data.head? = some c → isStripChar c = false)
    (hlast : ∀ c, y.data.getLast? = some c → isStripChar c = false)
    (hres : pyUpper (pathStem y) ∉ reservedNames) :
    sanitize_filename nfkd y false rs ml = y := by
  refine sf_fixed hne (fun h => by simp at h) ?_ hres ?_ hhd hlast hlen
  · intro c hc
    rw [hy] at hc
    exact (sf_chars nfkd fn false rs ml c hc).1
  · intro hrs c hc
    rw [hy] at hc
    exact (sf_chars nfkd fn false rs ml c hc).2 hrs

/-- Witness for C10 (amended): a second application leaves
`sanitize_filename id "doc.txt" false false 255` unchanged. -/
theorem sanitize_filename_idempotent_amended_witness :
    sanitize_filename id (sanitize_filename id "doc.txt" false false 255)
        false false 255 =
      sanitize_filename id "doc.txt" false false 255 := by
  refine sanitize_filename_idempotent_amended id "doc.txt" _ false 255 rfl
    (by decide) (by decide) ?_ ?_ (by decide)
  · intro c hc
    have h2 : (sanitize_filename id "doc.txt" false false 255).data.head? =
        some 'd' := rfl
    rw [h2] at hc
    simp at hc
    subst hc
    decide
  · intro c hc
    have h2 : (sanitize_filename id "doc.txt" false false 255).data.getLast? =
        some 't' := rfl
    rw [h2] at hc
    simp at hc
    subst hc
    decide

/-- C6: round-trip — a name that is already valid (non-empty, unchanged by
unicode normalization, no forbidden characters, stem not a reserved device
name, no leading/trailing dots or spaces, no spaces when `replace_spaces`
is set, within `max_length`) and not taken in the target directory is
returned unchanged by `FilenameSanitizer.sanitize` with empty prefix/suffix
and no case style. -/
theorem sanitize_roundtrip (cfg : SanitizerConfig) (nfkd : String → String)
    (ts fn : String) (dir : Option Directory)
    (hcase : cfg.case_style = none) (hfn : fn ≠ "")
    (hnorm : cfg.normalize_unicode = true → nfkd fn = fn)
    (hinv : ∀ c ∈ fn.data, isInvalidChar c = false)
    (hres : pyUpper (pathStem fn) ∉ reservedNames)
    (hsp : cfg.replace_spaces = true → ∀ c ∈ fn.data, c ≠ ' ')
    (hhd : ∀ c, fn.data.head? = some c → isStripChar c = false)
    (hlast : ∀ c, fn.data.getLast? = some c → isStripChar c = false)
    (hlen : fn.length ≤ cfg.max_length)
    (huniq : ∀ d, dir = some d → d.present = true → fn ∉ d.names) :
    FilenameSanitizer.sanitize cfg nfkd ts fn dir "" "" = fn := by
  have hsf : sanitize_filename nfkd fn cfg.normalize_unicode
      cfg.replace_spaces cfg.max_length = fn :=
    sf_fixed hfn hnorm hinv hres hsp hhd hlast hlen
  cases dir with
  | none => rw [facade_plain_none hcase hfn, hsf]
  | some d =>
    rw [facade_plain_some d hcase hfn, hsf]
    by_cases hcr : cfg.conflict_resolution = true
    · rw [if_pos hcr, resolve_filename_conflicts]
      by_cases hp : d.present = false
      · rw [if_pos hp]
      · have hp2 : d.present = true := by
          cases hdp : d.present
          · exact absurd hdp hp
          · rfl
        rw [if_neg hp, if_neg (huniq d rfl hp2)]
    · rw [if_neg hcr]

/-- Witness for C6: `"hello.txt"` with the default configuration and no
target directory round-trips unchanged. -/
theorem sanitize_roundtrip_witness :
    FilenameSanitizer.sanitize defaultConfig id "20230101_000000" "hello.txt"
      none "" "" = "hello.txt" := by
  refine sanitize_roundtrip defaultConfig id "20230101_000000" "hello.txt"
    none rfl (by decide) (fun _ => rfl) (by decide) (by decide) (by decide)
    ?_ ?_ (by decide) (fun d h => nomatch h)
  · intro c hc
    have h2 : ("hello.txt" : String).data.head? = some 'h' := rfl
    rw [h2] at hc
    simp at hc
    subst hc
    decide
  · intro c hc
    have h2 : ("hello.txt" : String).data.getLast? = some 't' := rfl
    rw [h2] at hc
    simp at hc
    subst hc
    decide

/-- C1 (counterexample): the conflict suffix is appended after truncation,
so with `max_length = 5` and `"a.txt"` already present the facade returns
`"a(1).txt"` of length 8 — the claimed `max_length` invariant fails. -/
theorem sanitize_facade_length_cex :
    FilenameSanitizer.sanitize ⟨false, false, 5, none, true, defaultFmt⟩ id
        "20230101_000000" "a.txt" (some ⟨true, ["a.txt"]⟩) "" "" =
      "a(1).txt" ∧
    5 < (FilenameSanitizer.sanitize ⟨false, false, 5, none, true, defaultFmt⟩
        id "20230101_000000" "a.txt" (some ⟨true, ["a.txt"]⟩) "" "").length := by
  decide

/-- C1 (amended): with empty prefix/suffix, no case style, `max_length ≥ 1`,
a non-empty input with no `/` after normalization: without a directory the
result is non-empty, within `max_length`, not purely dots/spaces and free of
forbidden characters; with a present directory, conflict resolution enabled
and some attempt (the candidate itself or a numbered variant within the 1000
budget) free, the result is absent from the directory's name set. The
`max_length` bound and reserved-stem guarantee do not extend to the
conflict-resolved result. -/
theorem sanitize_facade_invariants (cfg : SanitizerConfig)
    (nfkd : String → String) (ts fn : String) (d : Directory)
    (hcase : cfg.case_style = none) (hml : 1 ≤ cfg.max_length)
    (hfn : fn ≠ "")
    (hsl : ∀ c ∈ (if cfg.normalize_unicode then nfkd fn else fn).data,
      c ≠ '/') :
    (FilenameSanitizer.sanitize cfg nfkd ts fn none "" "" ≠ "" ∧
     (FilenameSanitizer.sanitize cfg nfkd ts fn none "" "").length ≤
       cfg.max_length ∧
     (∃ c ∈ (FilenameSanitizer.sanitize cfg nfkd ts fn none "" "").data,
       c ≠ '.' ∧ c ≠ ' ') ∧
     (∀ c ∈ (FilenameSanitizer.sanitize cfg nfkd ts fn none "" "").data,
       isInvalidChar c = false)) ∧
    (cfg.conflict_resolution = true → d.present = true →
      (sanitize_filename nfkd fn cfg.normalize_unicode cfg.replace_spaces
          cfg.max_length ∉ d.names ∨
       ∃ i, 1 ≤ i ∧ i ≤ 1000 ∧
         pathStem (sanitize_filename nfkd fn cfg.normalize_unicode
           cfg.replace_spaces cfg.max_length) ++
           cfg.conflict_suffix_format i ++
           pathExt (sanitize_filename nfkd fn cfg.normalize_unicode
             cfg.replace_spaces cfg.max_length) ∉ d.names) →
      FilenameSanitizer.sanitize cfg nfkd ts fn (some d) "" "" ∉
        d.names) := by
  constructor
  · rw [facade_plain_none hcase hfn]
    obtain ⟨hne, hhd⟩ := sf_head_not hfn hml hsl
    refine ⟨str_ne_empty_iff.mpr hne, sf_length hfn, ?_,
      fun c hc => (sf_chars nfkd fn cfg.normalize_unicode cfg.replace_spaces
        cfg.max_length c hc).1⟩
    obtain ⟨c, hc⟩ : ∃ c, (sanitize_filename nfkd fn cfg.normalize_unicode
        cfg.replace_spaces cfg.max_length).data.head? = some c := by
      cases hd : (sanitize_filename nfkd fn cfg.normalize_unicode
          cfg.replace_spaces cfg.max_length).data with
      | nil => exact absurd hd hne
      | cons x xs => exact ⟨x, rfl⟩
    have hstrip := hhd c hc
    rw [isStripChar] at hstrip
    simp at hstrip
    exact ⟨c, mem_of_head?_eq hc, hstrip⟩
  · intro hcr hp hfree
    rw [facade_plain_some d hcase hfn, if_pos hcr,
      resolve_filename_conflicts, if_neg (by simp [hp])]
    by_cases hmem : sanitize_filename nfkd fn cfg.normalize_unicode
        cfg.replace_spaces cfg.max_length ∈ d.names
    · rw [if_pos hmem]
      rcases hfree with h | ⟨i, h1, h2, h3⟩
      · exact absurd hmem h
      · obtain ⟨r, hr, hrn⟩ := ra_some_of_free 1000 1 ⟨i, h1, by omega, h3⟩
        rw [hr]
        exact hrn
    · rw [if_neg hmem]
      exact hmem

/-- Witness for C1 (amended): the conflict branch at `"a.txt"` against a
directory holding `"a.txt"` returns a name absent from the set. -/
theorem sanitize_facade_invariants_witness :
    FilenameSanitizer.sanitize ⟨false, false, 255, none, true, defaultFmt⟩ id
        "20230101_000000" "a.txt" (some ⟨true, ["a.txt"]⟩) "" "" ∉
      (⟨true, ["a.txt"]⟩ : Directory).names := by
  refine (sanitize_facade_invariants ⟨false, false, 255, none, true,
    defaultFmt⟩ id "20230101_000000" "a.txt" ⟨true, ["a.txt"]⟩ rfl (by decide)
    (by decide) (by decide)).2 rfl rfl ?_
  right
  exact ⟨1, by omega, by omega, by decide⟩

/-- C5: within one batch, two inputs whose facade-sanitized forms are the
same string `s` never both receive `s` (provided the numbered forms of `s`
differ from `s`, as any template with an integer slot guarantees); and
`batch_sanitize ["report", "report"]` with no directory yields
`("report", "report")` and `("report", "report(1)")`. -/
theorem batch_sanitize_distinct :
    (∀ (cfg : SanitizerConfig) (nfkd : String → String) (ts : String)
      (dir : Option Directory) (pre suf : String) (inputs : List String)
      (j k : Nat) (s : String), j < k → k < inputs.length →
      FilenameSanitizer.sanitize cfg nfkd ts (inputs.getD j "") dir pre suf =
        s →
      FilenameSanitizer.sanitize cfg nfkd ts (inputs.getD k "") dir pre suf =
        s →
      (∀ c, 1 ≤ c → c ≤ 1000 →
        pathStem s ++ cfg.conflict_suffix_format c ++ pathExt s ≠ s) →
      ¬(((FilenameSanitizer.batch_sanitize cfg nfkd ts inputs dir pre
            suf).getD j ("", "")).2 = s ∧
        ((FilenameSanitizer.batch_sanitize cfg nfkd ts inputs dir pre
            suf).getD k ("", "")).2 = s)) ∧
    FilenameSanitizer.batch_sanitize defaultConfig id "20230101_000000"
        ["report", "report"] none "" "" =
      [("report", "report"), ("report", "report(1)")] := by
  constructor
  · intro cfg nfkd ts dir pre suf inputs j k s hjk hk hsj hsk hfmt hand
    obtain ⟨hbj, hbk⟩ := hand
    obtain ⟨used2, hsub, hprev, hget⟩ :=
      batchAux_spec cfg nfkd ts dir pre suf inputs [] k hk
    rw [FilenameSanitizer.batch_sanitize] at hbj hbk
    have hsmem : s ∈ used2 := by
      have h := hprev j hjk
      rw [hbj] at h
      exact h
    rw [hget] at hbk
    have hbk2 : batchStep cfg used2
        (FilenameSanitizer.sanitize cfg nfkd ts (inputs.getD k "") dir pre
          suf) = s := hbk
    rw [hsk, batchStep, if_pos hsmem] at hbk2
    obtain ⟨c, h1, h2, h3⟩ := batchRetry_form hsmem (by omega : 1 ≤ 1000)
    rw [h3] at hbk2
    exact hfmt c h1 (by omega) hbk2
  · rfl

/-- Witness for C5: with a constant conflict template `"X"`, the two copies
of `"a"` cannot both end up as `"a"`. -/
theorem batch_sanitize_distinct_witness :
    ¬(((FilenameSanitizer.batch_sanitize ⟨false, false, 255, none, true,
          fun _ => "X"⟩ id "t" ["a", "a"] none "" "").getD 0 ("", "")).2 =
        "a" ∧
      ((FilenameSanitizer.batch_sanitize ⟨false, false, 255, none, true,
          fun _ => "X"⟩ id "t" ["a", "a"] none "" "").getD 1 ("", "")).2 =
        "a") := by
  refine batch_sanitize_distinct.1 ⟨false, false, 255, none, true,
    fun _ => "X"⟩ id "t" none "" "" ["a", "a"] 0 1 "a" (by omega) (by decide)
    (by decide) (by decide) ?_
  intro c h1 h2
  have hx : (⟨false, false, 255, none, true, fun _ => "X"⟩ :
      SanitizerConfig).conflict_suffix_format c = "X" := rfl
  rw [hx]
  decide

/-- C7: with a supplied non-empty regex pattern, the text extractor (and the
document extractor on its concatenated page text) returns the first capture
group of the match when the pattern has capture groups, the whole match
otherwise, and no result when the pattern matches nowhere. -/
theorem extract_regex_spec :
    (∀ (re_search : String → String → Option ReMatch) (content pat : String)
      (m : ReMatch), pat ≠ "" → re_search pat content = some m →
      TextExtractor.extract_content re_search content (some pat) =
        (match m.groups with
         | [] => some m.whole
         | g :: _ => g)) ∧
    (∀ (re_search : String → String → Option ReMatch) (content pat : String),
      pat ≠ "" → re_search pat content = none →
      TextExtractor.extract_content re_search content (some pat) = none) ∧
    (∀ (re_search : String → String → Option ReMatch) (pages : List String)
      (maxp : Nat) (pat : String) (m : ReMatch), pat ≠ "" →
      re_search pat (pdfContent pages maxp) = some m →
      PDFExtractor.extract_content re_search pages maxp (some pat) =
        (match m.groups with
         | [] => some m.whole
         | g :: _ => g)) ∧
    (∀ (re_search : String → String → Option ReMatch) (pages : List String)
      (maxp : Nat) (pat : String), pat ≠ "" →
      re_search pat (pdfContent pages maxp) = none →
      PDFExtractor.extract_content re_search pages maxp (some pat) =
        none) := by
  refine ⟨?_, ?_, ?_, ?_⟩
  · intro rs content pat m hpat hm
    simp only [TextExtractor.extract_content, regexOrFirstLine]
    rw [if_neg hpat, hm]
    rfl
  · intro rs content pat hpat hm
    simp only [TextExtractor.extract_content, regexOrFirstLine]
    rw [if_neg hpat, hm]
  · intro rs pages maxp pat m hpat hm
    simp only [PDFExtractor.extract_content, regexOrFirstLine]
    rw [if_neg hpat, hm]
    rfl
  · intro rs pages maxp pat hpat hm
    simp only [PDFExtractor.extract_content, regexOrFirstLine]
    rw [if_neg hpat, hm]

/-- Witness for C7: a stub search capability returning a group-less match. -/
theorem extract_regex_spec_witness :
    TextExtractor.extract_content
      (fun p c => if p = "x" ∧ c = "text" then some ⟨"m", []⟩ else none)
      "text" (some "x") = some "m" := by
  have h := extract_regex_spec.1
    (fun p c => if p = "x" ∧ c = "text" then some ⟨"m", []⟩ else none)
    "text" "x" ⟨"m", []⟩ (by decide) (by decide)
  exact h

/-- C8: a metadata timestamp that parses under `"%Y:%m:%d %H:%M:%S"` is
reformatted with the caller-supplied template; one that does not parse gives
no result; `"2023:05:17 14:30:00"` under the default template gives exactly
`"20230517_143000"`, and `"not-a-date"` gives no result. -/
theorem exif_datetime_spec :
    (∀ (exifdata : List (Nat × String)) (date_format v : String)
      (dt : PyDateTime), exifLookup exifdata = some v →
      strptimeExif v = some dt →
      ImageExifExtractor.extract_content exifdata date_format =
        some (pyStrftime date_format dt)) ∧
    (∀ (exifdata : List (Nat × String)) (date_format v : String),
      exifLookup exifdata = some v → strptimeExif v = none →
      ImageExifExtractor.extract_content exifdata date_format = none) ∧
    ImageExifExtractor.extract_content [(36867, "2023:05:17 14:30:00")]
      "%Y%m%d_%H%M%S" = some "20230517_143000" ∧
    ImageExifExtractor.extract_content [(36867, "not-a-date")]
      "%Y%m%d_%H%M%S" = none := by
  refine ⟨?_, ?_, by decide, by decide⟩
  · intro ex fmt v dt hl hp
    have hv : v ≠ "" := by
      intro h
      subst h
      simp [strptimeExif, strptimeRaw, parse4Digits] at hp
    simp only [ImageExifExtractor.extract_content, hl]
    rw [if_neg hv, hp]
  · intro ex fmt v hl hp
    simp only [ImageExifExtractor.extract_content, hl]
    by_cases hv : v = ""
    · rw [if_pos hv]
    · rw [if_neg hv, hp]

/-- Witness for C8: the fallback `DateTime` tag 306 parses and is
reformatted with a `"%Y"` template. -/
theorem exif_datetime_spec_witness :
    ImageExifExtractor.extract_content [(306, "2024:01:02 03:04:05")] "%Y" =
      some (pyStrftime "%Y" ⟨2024, 1, 2, 3, 4, 5⟩) :=
  exif_datetime_spec.1 [(306, "2024:01:02 03:04:05")] "%Y"
    "2024:01:02 03:04:05" ⟨2024, 1, 2, 3, 4, 5⟩ (by decide) (by decide)
